import Mathlib

/-!
# Verification of the gosql lexer

A shallow embedding of the hand-written SQL lexer in `src/lexer.go` (and of the
earlier revision kept in `src/unnamed/part_000`), together with theorems about
the lexing strategies, the longest-match matcher and the driver loop.

Strings are modelled as `List Char`, one list element per source byte (the
lexer is specified for single-byte ASCII input).  Go's `strings.ToLower`
applied to a single ASCII character is modelled by `lowerChar`.  A strategy
returning `ok == false` is modelled as `Option.none`; a successful strategy
returns `some (tok?, cursor)` where `tok? = none` models the `nil` token
produced for discarded whitespace.

A second, "checked" copy of the definitions models Go's bounds checking: every
place the Go code indexes or slices a string is represented by an operation
that yields `Option.none` when the index would be out of range (a run-time
panic in Go).  Theorems relate the checked functions to the total ones.
-/

namespace Gosql

/-- `strings.ToLower` restricted to a single ASCII character. -/
def lowerChar (c : Char) : Char :=
  if 'A' ≤ c ∧ c ≤ 'Z' then Char.ofNat (c.toNat + 32) else c

/-- The apostrophe character `'` (delimiter of string literals). -/
def quoteChar : Char := Char.ofNat 39

/-- The double-quote character `"` (delimiter of quoted identifiers). -/
def dquoteChar : Char := Char.ofNat 34

/-- Newline. -/
def newlineChar : Char := Char.ofNat 10

/-- Horizontal tab. -/
def tabChar : Char := Char.ofNat 9

/-- Space. -/
def spaceChar : Char := Char.ofNat 32

/-- `Location` from src/lexer.go: zero-based line and column. -/
structure Location where
  line : Nat
  col : Nat
deriving DecidableEq, Repr

/-- `Cursor` from src/lexer.go: byte offset plus human-readable location. -/
structure Cursor where
  pointer : Nat
  loc : Location
deriving DecidableEq, Repr

/-- `TokenKind` from src/lexer.go. -/
inductive TokenKind where
  | KeywordKind
  | SymbolKind
  | IdentifierKind
  | StringKind
  | NumericKind
deriving DecidableEq, Repr

/-- `Token` from src/lexer.go. -/
structure Token where
  value : List Char
  kind : TokenKind
  loc : Location
deriving DecidableEq, Repr

/-- The fixed keyword table of `lexKeyword` (src/lexer.go lines 139-150). -/
def keywords : List (List Char) :=
  ["select", "from", "as", "table", "create", "insert", "into", "values",
   "int", "text"].map String.toList

/-- The fixed symbol table of `lexSymbol` (src/lexer.go lines 312-318),
in source order: comma, left paren, right paren, semicolon, asterisk. -/
def symbols : List (List Char) :=
  [",", "(", ")", ";", "*"].map String.toList

/-! ## The longest-match matcher (src/lexer.go lines 346-384) -/

/-- Insertion into the `skip` map: Go's `skip[option] = true` adds the key if
absent; `len(skip)` counts the distinct keys, which the model keeps as a
duplicate-free list. -/
def lmInsertSkip (skip : List (List Char)) (o : List Char) : List (List Char) :=
  if o ∈ skip then skip else o :: skip

/-- One step of the inner `for _, option := range options` loop of
`longestMatch` in src/lexer.go.  The probe `value` has grown one character per
outer iteration, so `cur.Pointer - ic.Pointer = value.length` and the slice
`option[:cur.Pointer-ic.Pointer]` is `option.take value.length`.  The Go code
records an equal option by overwriting `match` unconditionally. -/
def lmProcessOption (value : List Char) (st : List Char × List (List Char))
    (option : List Char) : List Char × List (List Char) :=
  let (matched, skip) := st
  if option ∈ skip then (matched, skip)
  else if option = value then (option, lmInsertSkip skip option)
  else if value.length > option.length ∨ value ≠ option.take value.length then
    (matched, lmInsertSkip skip option)
  else (matched, skip)

/-- The outer loop of `longestMatch` (src/lexer.go): grow the lower-cased probe
one character at a time over the remaining source, run the inner option loop,
and stop early when every option has been marked dead. -/
def lmLoop (options : List (List Char)) (rest : List Char)
    (value matched : List Char) (skip : List (List Char)) : List Char :=
  match rest with
  | [] => matched
  | c :: cs =>
    let value' := value ++ [lowerChar c]
    let st := options.foldl (lmProcessOption value') (matched, skip)
    if st.2.length = options.length then st.1
    else lmLoop options cs value' st.1 st.2

/-- `longestMatch` from src/lexer.go lines 346-384. -/
def longestMatch (source : List Char) (ic : Cursor)
    (options : List (List Char)) : List Char :=
  lmLoop options (source.drop ic.pointer) [] [] []

/-- One step of the inner option loop of `longestMatch` in
src/unnamed/part_000 (lines 306-345): identical to `lmProcessOption` except
that an equal option is recorded only when it is strictly longer than the
current best match. -/
def lmProcessOptionP0 (value : List Char) (st : List Char × List (List Char))
    (option : List Char) : List Char × List (List Char) :=
  let (matched, skip) := st
  if option ∈ skip then (matched, skip)
  else if option = value then
    (if option.length > matched.length then option else matched,
     lmInsertSkip skip option)
  else if value.length > option.length ∨ value ≠ option.take value.length then
    (matched, lmInsertSkip skip option)
  else (matched, skip)

/-- The outer loop of `longestMatch` from src/unnamed/part_000. -/
def lmLoopP0 (options : List (List Char)) (rest : List Char)
    (value matched : List Char) (skip : List (List Char)) : List Char :=
  match rest with
  | [] => matched
  | c :: cs =>
    let value' := value ++ [lowerChar c]
    let st := options.foldl (lmProcessOptionP0 value') (matched, skip)
    if st.2.length = options.length then st.1
    else lmLoopP0 options cs value' st.1 st.2

/-- `longestMatch` from src/unnamed/part_000 lines 306-345. -/
def longestMatchP0 (source : List Char) (ic : Cursor)
    (options : List (List Char)) : List Char :=
  lmLoopP0 options (source.drop ic.pointer) [] [] []

/-! ## The delimited scan (src/lexer.go lines 251-290) -/

/-- The scanning loop of `lexCharacterDelimited`, entered just past the opening
delimiter.  `ptr`/`col` track `cur.Pointer`/`cur.Loc.Col` and `rest` is the
source text from `ptr` on.  On the terminating delimiter the Go code returns
`cur` unchanged, so the returned cursor still points at that delimiter.  In the
escape branch the Go code appends the delimiter, skips the second copy, and
then falls through to the unconditional `value = append(value, c)`, appending
the delimiter a second time; the loop's post-statement then advances past both
characters. -/
def lexCharDelimLoop (delimiter : Char) (startLoc : Location)
    (ptr col line : Nat) (value : List Char) (rest : List Char) :
    Option (Token × Cursor) :=
  match rest with
  | [] => none
  | c :: rest' =>
    if c = delimiter then
      match rest' with
      | [] =>
        some (⟨value, .StringKind, startLoc⟩, ⟨ptr, ⟨line, col⟩⟩)
      | c2 :: rest'' =>
        if c2 ≠ delimiter then
          some (⟨value, .StringKind, startLoc⟩, ⟨ptr, ⟨line, col⟩⟩)
        else
          lexCharDelimLoop delimiter startLoc (ptr + 2) (col + 2) line
            (value ++ [delimiter, c]) rest''
    else
      lexCharDelimLoop delimiter startLoc (ptr + 1) (col + 1) line
        (value ++ [c]) rest'

/-- `lexCharacterDelimited` from src/lexer.go lines 251-290.  Declines when the
remaining source is empty or does not start with the delimiter; otherwise
advances past the opening delimiter and scans.  Every produced token has
`StringKind`. -/
def lexCharacterDelimited (source : List Char) (ic : Cursor)
    (delimiter : Char) : Option (Token × Cursor) :=
  match source.drop ic.pointer with
  | [] => none
  | c :: rest =>
    if c ≠ delimiter then none
    else
      lexCharDelimLoop delimiter ic.loc (ic.pointer + 1) (ic.loc.col + 1)
        ic.loc.line [] rest

/-- `lexString` from src/lexer.go lines 245-247. -/
def lexString (source : List Char) (ic : Cursor) :
    Option (Option Token × Cursor) :=
  (lexCharacterDelimited source ic quoteChar).map fun tc => (some tc.1, tc.2)

/-! ## The identifier strategy (src/lexer.go lines 98-135) -/

/-- The continuation character class of `lexIdentifier`: ASCII letters, digits
strictly greater than `'0'`, `$` and `_`. -/
def isIdentContinuation (c : Char) : Bool :=
  (('A' ≤ c ∧ c ≤ 'Z') ∨ ('a' ≤ c ∧ c ≤ 'z') ∨ ('0' < c ∧ c ≤ '9')) ∨
    c = '$' ∨ c = '_'

/-- The accumulation loop of `lexIdentifier` (src/lexer.go lines 116-125). -/
def lexIdentLoop (ptr col : Nat) (value : List Char) (rest : List Char) :
    Nat × Nat × List Char :=
  match rest with
  | [] => (ptr, col, value)
  | c :: rest' =>
    if isIdentContinuation c then
      lexIdentLoop (ptr + 1) (col + 1) (value ++ [c]) rest'
    else (ptr, col, value)

/-- `lexIdentifier` from src/lexer.go lines 98-135.  First tries the
double-quote delimited scan and returns its result as-is; otherwise requires an
ASCII alphabetic first character, accumulates continuation characters, and
lower-cases the accumulated value.  The read of `source[cur.Pointer]` is
unguarded in Go (the driver guarantees the pointer is in range); the model
declines on empty remaining input at that point. -/
def lexIdentifier (source : List Char) (ic : Cursor) :
    Option (Option Token × Cursor) :=
  match lexCharacterDelimited source ic dquoteChar with
  | some (t, c') => some (some t, c')
  | none =>
    match source.drop ic.pointer with
    | [] => none
    | c :: rest =>
      if ¬ (('A' ≤ c ∧ c ≤ 'Z') ∨ ('a' ≤ c ∧ c ≤ 'z')) then none
      else
        let r := lexIdentLoop (ic.pointer + 1) (ic.loc.col + 1) [c] rest
        if r.2.2 = [] then none
        else
          some (some ⟨r.2.2.map lowerChar, .IdentifierKind, ic.loc⟩,
            ⟨r.1, ⟨ic.loc.line, r.2.1⟩⟩)

/-! ## The numeric strategy (src/lexer.go lines 173-242) -/

/-- The scanning loop of `lexNumeric` (src/lexer.go lines 178-230).  Returns
`none` when the Go code executes `return nil, ic, false` inside the loop
(first glyph not digit/period, second period, second exponent marker, exponent
marker as last glyph of the source); returns `some (ptr, col)` on normal exit.
`cur.Loc.Col` is incremented at the top of each iteration, so on a `break` the
returned column counts the rejected character as well. -/
def lexNumericLoop (icPointer : Nat) (ptr col : Nat)
    (periodFound expMarkerFound : Bool) (rest : List Char) :
    Option (Nat × Nat) :=
  match rest with
  | [] => some (ptr, col)
  | c :: rest' =>
    let col' := col + 1
    let isDigit : Bool := '0' ≤ c ∧ c ≤ '9'
    let isPeriod : Bool := c = '.'
    let isExpMarker : Bool := c = 'e'
    if ptr = icPointer then
      if ¬ isDigit ∧ ¬ isPeriod then none
      else lexNumericLoop icPointer (ptr + 1) col' isPeriod false rest'
    else if isPeriod then
      if periodFound then none
      else lexNumericLoop icPointer (ptr + 1) col' true expMarkerFound rest'
    else if isExpMarker then
      if expMarkerFound then none
      else
        match rest' with
        | [] => none
        | cNext :: rest'' =>
          if cNext = '-' ∨ cNext = '+' then
            lexNumericLoop icPointer (ptr + 2) (col' + 1) true true rest''
          else
            lexNumericLoop icPointer (ptr + 1) col' true true (cNext :: rest'')
    else if ¬ isDigit then some (ptr, col')
    else lexNumericLoop icPointer (ptr + 1) col' periodFound expMarkerFound rest'

/-- `lexNumeric` from src/lexer.go lines 173-242. -/
def lexNumeric (source : List Char) (ic : Cursor) :
    Option (Option Token × Cursor) :=
  match lexNumericLoop ic.pointer ic.pointer ic.loc.col false false
      (source.drop ic.pointer) with
  | none => none
  | some (ptr, col) =>
    if ptr = ic.pointer then none
    else
      some (some ⟨(source.drop ic.pointer).take (ptr - ic.pointer),
        .NumericKind, ic.loc⟩, ⟨ptr, ⟨ic.loc.line, col⟩⟩)

/-! ## The keyword and symbol strategies -/

/-- `lexKeyword` from src/lexer.go lines 137-170. -/
def lexKeyword (source : List Char) (ic : Cursor) :
    Option (Option Token × Cursor) :=
  let m := longestMatch source ic keywords
  if m = [] then none
  else
    some (some ⟨m, .KeywordKind, ic.loc⟩,
      ⟨ic.pointer + m.length, ⟨ic.loc.line, ic.loc.col + m.length⟩⟩)

/-- `lexSymbol` from src/lexer.go lines 293-341.  Examines the character at the
cursor (an unguarded read in Go; the model declines on empty remaining input at
that point): newline, tab and space are consumed without producing a token
(newline resets the column and increments the line); otherwise a longest match
against the symbol table is attempted. -/
def lexSymbol (source : List Char) (ic : Cursor) :
    Option (Option Token × Cursor) :=
  match source.drop ic.pointer with
  | [] => none
  | c :: _ =>
    if c = newlineChar then
      some (none, ⟨ic.pointer + 1, ⟨ic.loc.line + 1, 0⟩⟩)
    else if c = tabChar then
      some (none, ⟨ic.pointer + 1, ⟨ic.loc.line, ic.loc.col + 1⟩⟩)
    else if c = spaceChar then
      some (none, ⟨ic.pointer + 1, ⟨ic.loc.line, ic.loc.col + 1⟩⟩)
    else
      let m := longestMatch source ic symbols
      if m = [] then none
      else
        some (some ⟨m, .SymbolKind, ic.loc⟩,
          ⟨ic.pointer + m.length, ⟨ic.loc.line, ic.loc.col + m.length⟩⟩)

/-! ## The driver loop (src/lexer.go lines 69-93) -/

/-- Identifiers for the five scan strategies, used to record the order in which
the driver consults them. -/
inductive StrategyId where
  | keyword
  | symbol
  | string
  | numeric
  | identifier
deriving DecidableEq, Repr

/-- Dispatch a strategy identifier to the corresponding src/lexer.go function. -/
def runStrategy : StrategyId → List Char → Cursor →
    Option (Option Token × Cursor)
  | .keyword => lexKeyword
  | .symbol => lexSymbol
  | .string => lexString
  | .numeric => lexNumeric
  | .identifier => lexIdentifier

/-- The `lexers` list of src/lexer.go line 72:
`[]lexer{lexKeyword, lexSymbol, lexString, lexNumeric, lexIdentifier}`. -/
def lexers : List StrategyId :=
  [.keyword, .symbol, .string, .numeric, .identifier]

/-- The inner `for _, l := range lexers` loop of `lex`: the first strategy that
succeeds claims the position. -/
def tryStrategies (ids : List StrategyId) (source : List Char) (cur : Cursor) :
    Option (Option Token × Cursor) :=
  match ids with
  | [] => none
  | id :: rest =>
    match runStrategy id source cur with
    | some r => some r
    | none => tryStrategies rest source cur

/-- Result of a lex pass: token list on success, or the location of the failing
position together with the value of the most recently accepted token (the
diagnostic hint of the `Unable to lex token` error), if any.  `outOfFuel` is
the sentinel for exhausted recursion fuel; the driver is proven never to
produce it. -/
inductive LexResult where
  | ok : List Token → LexResult
  | err : Location → Option (List Char) → LexResult
  | outOfFuel : LexResult
deriving DecidableEq, Repr

/-- The hint attached to the error: the value of the most recently accepted
token (`tokens[len(tokens)-1].Value`), if any token was accepted. -/
def lastHint (tokens : List Token) : Option (List Char) :=
  (tokens.getLast?).map Token.value

/-- The main lexing loop of `lex` (src/lexer.go lines 74-91), with explicit
fuel driving the recursion.  Each iteration consults the strategies in order;
on success the cursor advances and a non-nil token is appended; if every
strategy declines the pass fails with the current location and the hint. -/
def lexLoop (fuel : Nat) (source : List Char) (tokens : List Token)
    (cur : Cursor) : LexResult :=
  match fuel with
  | 0 => .outOfFuel
  | fuel' + 1 =>
    if cur.pointer < source.length then
      match tryStrategies lexers source cur with
      | some (tok?, newCur) =>
        lexLoop fuel' source
          (match tok? with
           | some t => tokens ++ [t]
           | none => tokens) newCur
      | none => .err cur.loc (lastHint tokens)
    else .ok tokens

/-- `lex` from src/lexer.go lines 69-93.  `source.length + 1` units of fuel are
always sufficient because every successful strategy application strictly
advances the pointer. -/
def lex (source : List Char) : LexResult :=
  lexLoop (source.length + 1) source [] ⟨0, ⟨0, 0⟩⟩

/-! ## The earlier revision in src/unnamed/part_000

Its `lexNumeric`, `lexString`, `lexCharacterDelimited` are textually identical
to those of src/lexer.go and are reused.  Its `lexKeyword` and `lexSymbol`
differ only in calling that revision's `longestMatch`.  Its `lexIdentifier`
(line 96) is declared without a body, so it is modelled from the spec.  Its
driver consults the strategies in a different order (line 72). -/

/-- Modelled from the spec: the delimited-scan routine of section 4.4, needed
because src/unnamed/part_000 declares `lexIdentifier` without a body.
Characters are accumulated verbatim until the delimiter recurs; a delimiter
immediately followed by a second copy contributes one literal delimiter
character and both copies are consumed; a delimiter not followed by a repeat
ends the token, with the terminating delimiter consumed; end of text without a
terminating delimiter is a decline. -/
def specDelimLoop (delimiter : Char) (ptr col line : Nat)
    (value : List Char) (rest : List Char) : Option (List Char × Cursor) :=
  match rest with
  | [] => none
  | c :: rest' =>
    if c = delimiter then
      match rest' with
      | [] => some (value, ⟨ptr + 1, ⟨line, col + 1⟩⟩)
      | c2 :: rest'' =>
        if c2 = delimiter then
          specDelimLoop delimiter (ptr + 2) (col + 2) line
            (value ++ [delimiter]) rest''
        else some (value, ⟨ptr + 1, ⟨line, col + 1⟩⟩)
    else specDelimLoop delimiter (ptr + 1) (col + 1) line (value ++ [c]) rest'

/-- Modelled from the spec: `lexIdentifier` of section 4.5, needed because
src/unnamed/part_000 declares `lexIdentifier` (line 96) without a body.  It
first delegates to the delimited scan with a double-quote delimiter and, on
success, returns the result as an Identifier-kind token with case preserved;
otherwise the text must begin with an ASCII alphabetic character, subsequent
characters are accumulated while alphanumeric (digits strictly greater than
`'0'`), `$` or `_`, and the accumulated value is lower-cased. -/
def lexIdentifierSpec (source : List Char) (ic : Cursor) :
    Option (Option Token × Cursor) :=
  match source.drop ic.pointer with
  | [] => none
  | c :: rest =>
    if c = dquoteChar then
      match specDelimLoop dquoteChar (ic.pointer + 1) (ic.loc.col + 1)
          ic.loc.line [] rest with
      | some (v, c') => some (some ⟨v, .IdentifierKind, ic.loc⟩, c')
      | none => none
    else if ¬ (('A' ≤ c ∧ c ≤ 'Z') ∨ ('a' ≤ c ∧ c ≤ 'z')) then none
    else
      let r := lexIdentLoop (ic.pointer + 1) (ic.loc.col + 1) [c] rest
      some (some ⟨r.2.2.map lowerChar, .IdentifierKind, ic.loc⟩,
        ⟨r.1, ⟨ic.loc.line, r.2.1⟩⟩)

/-- `lexKeyword` from src/unnamed/part_000 lines 98-131: identical to the
src/lexer.go version except that it calls that revision's `longestMatch`. -/
def lexKeywordP0 (source : List Char) (ic : Cursor) :
    Option (Option Token × Cursor) :=
  let m := longestMatchP0 source ic keywords
  if m = [] then none
  else
    some (some ⟨m, .KeywordKind, ic.loc⟩,
      ⟨ic.pointer + m.length, ⟨ic.loc.line, ic.loc.col + m.length⟩⟩)

/-- `lexSymbol` from src/unnamed/part_000 lines 254-302: identical to the
src/lexer.go version except that it calls that revision's `longestMatch`. -/
def lexSymbolP0 (source : List Char) (ic : Cursor) :
    Option (Option Token × Cursor) :=
  match source.drop ic.pointer with
  | [] => none
  | c :: _ =>
    if c = newlineChar then
      some (none, ⟨ic.pointer + 1, ⟨ic.loc.line + 1, 0⟩⟩)
    else if c = tabChar then
      some (none, ⟨ic.pointer + 1, ⟨ic.loc.line, ic.loc.col + 1⟩⟩)
    else if c = spaceChar then
      some (none, ⟨ic.pointer + 1, ⟨ic.loc.line, ic.loc.col + 1⟩⟩)
    else
      let m := longestMatchP0 source ic symbols
      if m = [] then none
      else
        some (some ⟨m, .SymbolKind, ic.loc⟩,
          ⟨ic.pointer + m.length, ⟨ic.loc.line, ic.loc.col + m.length⟩⟩)

/-- Dispatch for the src/unnamed/part_000 revision: `lexString` and
`lexNumeric` are textually identical there and are shared. -/
def runStrategyP0 : StrategyId → List Char → Cursor →
    Option (Option Token × Cursor)
  | .keyword => lexKeywordP0
  | .symbol => lexSymbolP0
  | .string => lexString
  | .numeric => lexNumeric
  | .identifier => lexIdentifierSpec

/-- The `lexers` list of src/unnamed/part_000 line 72:
`[]lexer{lexIdentifier, lexKeyword, lexNumeric, lexString, lexSymbol}`. -/
def part000Lexers : List StrategyId :=
  [.identifier, .keyword, .numeric, .string, .symbol]

/-- The inner strategy loop of the src/unnamed/part_000 driver. -/
def tryStrategiesP0 (ids : List StrategyId) (source : List Char)
    (cur : Cursor) : Option (Option Token × Cursor) :=
  match ids with
  | [] => none
  | id :: rest =>
    match runStrategyP0 id source cur with
    | some r => some r
    | none => tryStrategiesP0 rest source cur

/-- The main lexing loop of src/unnamed/part_000 (lines 74-91), identical to
the src/lexer.go loop apart from the strategy order. -/
def lexLoopP0 (fuel : Nat) (source : List Char) (tokens : List Token)
    (cur : Cursor) : LexResult :=
  match fuel with
  | 0 => .outOfFuel
  | fuel' + 1 =>
    if cur.pointer < source.length then
      match tryStrategiesP0 part000Lexers source cur with
      | some (tok?, newCur) =>
        lexLoopP0 fuel' source
          (match tok? with
           | some t => tokens ++ [t]
           | none => tokens) newCur
      | none => .err cur.loc (lastHint tokens)
    else .ok tokens

/-- `lex` from src/unnamed/part_000 lines 69-93. -/
def lexP0 (source : List Char) : LexResult :=
  lexLoopP0 (source.length + 1) source [] ⟨0, ⟨0, 0⟩⟩

/-! ## Bounds-checked mirrors

Each definition below mirrors a src/lexer.go function, with `Option.none`
produced exactly where the Go code would panic on an out-of-range string index
or slice.  A decline is `some none`; success is `some (some _)`. -/

/-- Checked mirror of the inner option loop: Go evaluates the slice
`option[:cur.Pointer-ic.Pointer]` before testing `tooLong`, so an option
shorter than the probe that survived to this point is a panic
(`option.length < value.length` yields `none`), not a pruning. -/
def lmProcessOptionC (value : List Char)
    (st : Option (List Char × List (List Char))) (option : List Char) :
    Option (List Char × List (List Char)) :=
  match st with
  | none => none
  | some (matched, skip) =>
    if option ∈ skip then some (matched, skip)
    else if option = value then some (option, lmInsertSkip skip option)
    else if option.length < value.length then none
    else if value ≠ option.take value.length then
      some (matched, lmInsertSkip skip option)
    else some (matched, skip)

/-- Checked mirror of the outer `longestMatch` loop. -/
def lmLoopC (options : List (List Char)) (rest : List Char)
    (value matched : List Char) (skip : List (List Char)) :
    Option (List Char) :=
  match rest with
  | [] => some matched
  | c :: cs =>
    let value' := value ++ [lowerChar c]
    match options.foldl (lmProcessOptionC value') (some (matched, skip)) with
    | none => none
    | some st =>
      if st.2.length = options.length then some st.1
      else lmLoopC options cs value' st.1 st.2

/-- Checked mirror of `longestMatch`: the only reads besides the option slice
are `source[cur.Pointer]`, guarded by the loop condition. -/
def longestMatchC (source : List Char) (ic : Cursor)
    (options : List (List Char)) : Option (List Char) :=
  lmLoopC options (source.drop ic.pointer) [] [] []

/-- Checked mirror of `lexKeyword`: its only indexing is inside
`longestMatch`. -/
def lexKeywordC (source : List Char) (ic : Cursor) :
    Option (Option (Option Token × Cursor)) :=
  match longestMatchC source ic keywords with
  | none => none
  | some m =>
    if m = [] then some none
    else
      some (some (some ⟨m, .KeywordKind, ic.loc⟩,
        ⟨ic.pointer + m.length, ⟨ic.loc.line, ic.loc.col + m.length⟩⟩))

/-- Checked mirror of `lexSymbol`: the read of `source[ic.Pointer]` (line 294)
is unguarded, so an out-of-range pointer is a panic. -/
def lexSymbolC (source : List Char) (ic : Cursor) :
    Option (Option (Option Token × Cursor)) :=
  match source.drop ic.pointer with
  | [] => none
  | c :: _ =>
    if c = newlineChar then
      some (some (none, ⟨ic.pointer + 1, ⟨ic.loc.line + 1, 0⟩⟩))
    else if c = tabChar then
      some (some (none, ⟨ic.pointer + 1, ⟨ic.loc.line, ic.loc.col + 1⟩⟩))
    else if c = spaceChar then
      some (some (none, ⟨ic.pointer + 1, ⟨ic.loc.line, ic.loc.col + 1⟩⟩))
    else
      match longestMatchC source ic symbols with
      | none => none
      | some m =>
        if m = [] then some none
        else
          some (some (some ⟨m, .SymbolKind, ic.loc⟩,
            ⟨ic.pointer + m.length, ⟨ic.loc.line, ic.loc.col + m.length⟩⟩))

/-- Checked mirror of `lexCharacterDelimited`: the entry slice
`source[cur.Pointer:]` (line 254) panics when the pointer exceeds the length;
every read inside the scanning loop is guarded (`cur.Pointer < len(source)` by
the loop condition, `cur.Pointer+1` by the explicit `>=` test), so past the
entry the checked behaviour coincides with the total model. -/
def lexCharacterDelimitedC (source : List Char) (ic : Cursor)
    (delimiter : Char) : Option (Option (Token × Cursor)) :=
  if ic.pointer ≤ source.length then
    some (lexCharacterDelimited source ic delimiter)
  else none

/-- Checked mirror of `lexString`. -/
def lexStringC (source : List Char) (ic : Cursor) :
    Option (Option (Option Token × Cursor)) :=
  match lexCharacterDelimitedC source ic quoteChar with
  | none => none
  | some none => some none
  | some (some (t, c')) => some (some (some t, c'))

/-- Checked mirror of `lexIdentifier`: after the delimited scan declines, the
read of `source[cur.Pointer]` (line 106) is unguarded, so an out-of-range
pointer is a panic; the accumulation loop's reads are guarded by its loop
condition. -/
def lexIdentifierC (source : List Char) (ic : Cursor) :
    Option (Option (Option Token × Cursor)) :=
  match lexCharacterDelimitedC source ic dquoteChar with
  | none => none
  | some (some (t, c')) => some (some (some t, c'))
  | some none =>
    match source.drop ic.pointer with
    | [] => none
    | c :: rest =>
      if ¬ (('A' ≤ c ∧ c ≤ 'Z') ∨ ('a' ≤ c ∧ c ≤ 'z')) then some none
      else
        let r := lexIdentLoop (ic.pointer + 1) (ic.loc.col + 1) [c] rest
        if r.2.2 = [] then some none
        else
          some (some (some ⟨r.2.2.map lowerChar, .IdentifierKind, ic.loc⟩,
            ⟨r.1, ⟨ic.loc.line, r.2.1⟩⟩))

/-- Checked mirror of `lexNumeric`: every read is guarded in the Go code (the
loop condition guards `source[cur.Pointer]`, the explicit last-glyph test
guards `source[cur.Pointer+1]`, and the final slice bounds follow from the
loop), so no input panics and the checked function is total. -/
def lexNumericC (source : List Char) (ic : Cursor) :
    Option (Option (Option Token × Cursor)) :=
  some (lexNumeric source ic)

/-- Checked strategy dispatch. -/
def runStrategyC : StrategyId → List Char → Cursor →
    Option (Option (Option Token × Cursor))
  | .keyword => lexKeywordC
  | .symbol => lexSymbolC
  | .string => lexStringC
  | .numeric => lexNumericC
  | .identifier => lexIdentifierC

/-- Checked mirror of the driver's inner strategy loop: a panic in any
consulted strategy propagates. -/
def tryStrategiesC (ids : List StrategyId) (source : List Char)
    (cur : Cursor) : Option (Option (Option Token × Cursor)) :=
  match ids with
  | [] => some none
  | id :: rest =>
    match runStrategyC id source cur with
    | none => none
    | some (some r) => some (some r)
    | some none => tryStrategiesC rest source cur

/-- Checked mirror of the main lexing loop: the only indexing of its own is
`tokens[len(tokens)-1]`, guarded by `len(tokens) > 0`. -/
def lexLoopC (fuel : Nat) (source : List Char) (tokens : List Token)
    (cur : Cursor) : Option LexResult :=
  match fuel with
  | 0 => some .outOfFuel
  | fuel' + 1 =>
    if cur.pointer < source.length then
      match tryStrategiesC lexers source cur with
      | none => none
      | some none => some (.err cur.loc (lastHint tokens))
      | some (some (tok?, newCur)) =>
        lexLoopC fuel' source
          (match tok? with
           | some t => tokens ++ [t]
           | none => tokens) newCur
    else some (.ok tokens)

/-- Checked mirror of `lex`. -/
def lexC (source : List Char) : Option LexResult :=
  lexLoopC (source.length + 1) source [] ⟨0, ⟨0, 0⟩⟩

/-! ## The probe of the longest-match matcher -/

/-- The lower-cased probe built by `longestMatch` after consuming `k`
characters of the remaining source `full`. -/
def probe (full : List Char) (k : Nat) : List Char :=
  (full.take k).map lowerChar

lemma probe_zero (full : List Char) : probe full 0 = [] := rfl

lemma probe_length {full : List Char} {k : Nat} (h : k ≤ full.length) :
    (probe full k).length = k := by
  unfold probe
  rw [List.length_map, List.length_take]
  exact Nat.min_eq_left h

lemma probe_length_le (full : List Char) (k : Nat) :
    (probe full k).length ≤ k := by
  unfold probe
  rw [List.length_map, List.length_take]
  exact Nat.min_le_left _ _

lemma probe_succ {full : List Char} {k : Nat} (h : k < full.length) :
    probe full (k + 1) = probe full k ++ [lowerChar (full.get ⟨k, h⟩)] := by
  unfold probe
  rw [List.take_succ, List.getElem?_eq_getElem h, List.map_append]
  rfl

lemma probe_take {full : List Char} {j k : Nat} (h : j ≤ k) :
    (probe full k).take j = probe full j := by
  simp [probe, ← List.map_take, List.take_take, Nat.min_eq_left h]

/-! ## Facts about the skip set -/

lemma mem_lmInsertSkip {skip : List (List Char)} {o x : List Char} :
    x ∈ lmInsertSkip skip o ↔ x ∈ skip ∨ x = o := by
  unfold lmInsertSkip
  by_cases h : o ∈ skip
  · rw [if_pos h]
    constructor
    · exact Or.inl
    · rintro (hx | rfl)
      · exact hx
      · exact h
  · rw [if_neg h]
    constructor
    · intro hx
      rcases List.mem_cons.mp hx with rfl | hx
      · exact Or.inr rfl
      · exact Or.inl hx
    · rintro (hx | rfl)
      · exact List.mem_cons_of_mem _ hx
      · exact List.mem_cons_self _ _

lemma lmInsertSkip_subset (skip : List (List Char)) (o : List Char) :
    skip ⊆ lmInsertSkip skip o := by
  intro x hx; exact mem_lmInsertSkip.mpr (Or.inl hx)

lemma self_mem_lmInsertSkip (skip : List (List Char)) (o : List Char) :
    o ∈ lmInsertSkip skip o := mem_lmInsertSkip.mpr (Or.inr rfl)

lemma lmInsertSkip_nodup {skip : List (List Char)} (h : skip.Nodup)
    (o : List Char) : (lmInsertSkip skip o).Nodup := by
  unfold lmInsertSkip
  by_cases ho : o ∈ skip <;> simp [ho, h]

/-- If a duplicate-free sublist of `options` has full length, it exhausts
`options`. -/
lemma all_mem_of_length_eq {skip options : List (List Char)}
    (hnd : skip.Nodup) (hsub : ∀ x ∈ skip, x ∈ options)
    (hlen : skip.length = options.length) :
    ∀ o ∈ options, o ∈ skip := by
  intro o ho
  by_contra hmem
  have hsub' : (o :: skip) ⊆ options := by
    intro x hx
    rcases List.mem_cons.mp hx with rfl | hx
    · exact ho
    · exact hsub x hx
  have hnd' : (o :: skip).Nodup := List.nodup_cons.mpr ⟨hmem, hnd⟩
  have := (List.subperm_of_subset hnd' hsub').length_le
  simp [hlen] at this

/-! ## Shape of one step of the inner option loop -/

/-- Case analysis for `lmProcessOption`: a step either leaves the state
unchanged, records the option (exactly when it equals the probe and is not yet
skipped), or prunes the option. -/
lemma lmProcessOption_shape (v m : List Char) (s : List (List Char))
    (h : List Char) :
    (lmProcessOption v (m, s) h = (m, s)) ∨
    (h = v ∧ h ∉ s ∧ lmProcessOption v (m, s) h = (h, lmInsertSkip s h)) ∨
    (h ≠ v ∧ h ∉ s ∧ lmProcessOption v (m, s) h = (m, lmInsertSkip s h)) := by
  unfold lmProcessOption
  by_cases h1 : h ∈ s
  · left; simp [h1]
  · by_cases h2 : h = v
    · right; left
      subst h2
      exact ⟨rfl, h1, by simp [h1]⟩
    · by_cases h3 : v.length > h.length ∨ v ≠ h.take v.length
      · right; right
        exact ⟨h2, h1, by simp [h1, h2, h3]⟩
      · left; simp [h1, h2, h3]

/-- The state left unchanged or skip grown: skip sets only grow along the
inner loop. -/
lemma lmFold_skip_mono (v : List Char) :
    ∀ (opts : List (List Char)) (m : List Char) (s : List (List Char)),
      s ⊆ (List.foldl (lmProcessOption v) (m, s) opts).2 := by
  intro opts
  induction opts with
  | nil => intro m s; simp
  | cons h t ih =>
    intro m s
    rw [List.foldl_cons]
    rcases lmProcessOption_shape v m s h with heq | ⟨_, _, heq⟩ | ⟨_, _, heq⟩ <;>
      rw [heq]
    · exact ih m s
    · exact fun x hx => ih h (lmInsertSkip s h) (lmInsertSkip_subset s h hx)
    · exact fun x hx => ih m (lmInsertSkip s h) (lmInsertSkip_subset s h hx)

/-- Everything in the final skip set was already skipped or is an option. -/
lemma lmFold_skip_sub (v : List Char) :
    ∀ (opts : List (List Char)) (m : List Char) (s : List (List Char)),
      ∀ x ∈ (List.foldl (lmProcessOption v) (m, s) opts).2,
        x ∈ s ∨ x ∈ opts := by
  intro opts
  induction opts with
  | nil => intro m s x hx; exact Or.inl hx
  | cons h t ih =>
    intro m s x hx
    rw [List.foldl_cons] at hx
    rcases lmProcessOption_shape v m s h with heq | ⟨_, _, heq⟩ | ⟨_, _, heq⟩ <;>
      rw [heq] at hx
    · rcases ih m s x hx with h' | h'
      · exact Or.inl h'
      · exact Or.inr (List.mem_cons_of_mem _ h')
    all_goals
      rcases ih _ (lmInsertSkip s h) x hx with h' | h'
      · rcases mem_lmInsertSkip.mp h' with h'' | rfl
        · exact Or.inl h''
        · exact Or.inr (List.mem_cons_self _ _)
      · exact Or.inr (List.mem_cons_of_mem _ h')

/-- The skip set stays duplicate-free along the inner loop. -/
lemma lmFold_skip_nodup (v : List Char) :
    ∀ (opts : List (List Char)) (m : List Char) (s : List (List Char)),
      s.Nodup → (List.foldl (lmProcessOption v) (m, s) opts).2.Nodup := by
  intro opts
  induction opts with
  | nil => intro m s hs; exact hs
  | cons h t ih =>
    intro m s hs
    rw [List.foldl_cons]
    rcases lmProcessOption_shape v m s h with heq | ⟨_, _, heq⟩ | ⟨_, _, heq⟩ <;>
      rw [heq]
    · exact ih m s hs
    · exact ih h _ (lmInsertSkip_nodup hs h)
    · exact ih m _ (lmInsertSkip_nodup hs h)

/-- The best match leaving the inner loop is the incoming one or the probe
(recorded from an option equal to it). -/
lemma lmFold_matched_cases (v : List Char) :
    ∀ (opts : List (List Char)) (m : List Char) (s : List (List Char)),
      (List.foldl (lmProcessOption v) (m, s) opts).1 = m ∨
      ((List.foldl (lmProcessOption v) (m, s) opts).1 = v ∧ v ∈ opts) := by
  intro opts
  induction opts with
  | nil => intro m s; exact Or.inl rfl
  | cons h t ih =>
    intro m s
    rw [List.foldl_cons]
    rcases lmProcessOption_shape v m s h with heq | ⟨hv, _, heq⟩ | ⟨_, _, heq⟩ <;>
      rw [heq]
    · rcases ih m s with h' | ⟨h', hv⟩
      · exact Or.inl h'
      · exact Or.inr ⟨h', List.mem_cons_of_mem _ hv⟩
    · subst hv
      rcases ih h (lmInsertSkip s h) with h' | ⟨h', _⟩
      · exact Or.inr ⟨h', List.mem_cons_self _ _⟩
      · exact Or.inr ⟨h', List.mem_cons_self _ _⟩
    · rcases ih m (lmInsertSkip s h) with h' | ⟨h', hv⟩
      · exact Or.inl h'
      · exact Or.inr ⟨h', List.mem_cons_of_mem _ hv⟩

/-- Once the best match equals the probe it stays so for the rest of the inner
loop. -/
lemma lmFold_matched_stable (v : List Char) :
    ∀ (opts : List (List Char)) (s : List (List Char)),
      (List.foldl (lmProcessOption v) (v, s) opts).1 = v := by
  intro opts
  induction opts with
  | nil => intro s; rfl
  | cons h t ih =>
    intro s
    rw [List.foldl_cons]
    rcases lmProcessOption_shape v v s h with heq | ⟨hv, _, heq⟩ | ⟨_, _, heq⟩ <;>
      rw [heq]
    · exact ih s
    · subst hv; exact ih _
    · exact ih _

/-- If some not-yet-skipped option equals the probe, the inner loop records
it. -/
lemma lmFold_records (v : List Char) :
    ∀ (opts : List (List Char)) (m : List Char) (s : List (List Char)),
      v ∈ opts → v ∉ s →
      (List.foldl (lmProcessOption v) (m, s) opts).1 = v := by
  intro opts
  induction opts with
  | nil => intro m s hv; simp at hv
  | cons h t ih =>
    intro m s hv hvs
    rw [List.foldl_cons]
    rcases List.mem_cons.mp hv with rfl | hv'
    · have hstep : lmProcessOption v (m, s) v = (v, lmInsertSkip s v) := by
        unfold lmProcessOption
        simp [hvs]
      rw [hstep]
      exact lmFold_matched_stable v t _
    · rcases lmProcessOption_shape v m s h with heq | ⟨hv2, _, heq⟩ | ⟨hne, _, heq⟩ <;>
        rw [heq]
      · exact ih m s hv' hvs
      · subst hv2
        exact lmFold_matched_stable h t _
      · refine ih m _ hv' ?_
        intro hc
        rcases mem_lmInsertSkip.mp hc with h' | hEq
        · exact hvs h'
        · exact hne hEq.symm

/-- Evaluation of one inner-loop step: already-skipped option. -/
lemma lmProcessOption_mem {v m : List Char} {s : List (List Char)}
    {h : List Char} (h1 : h ∈ s) : lmProcessOption v (m, s) h = (m, s) := by
  unfold lmProcessOption; simp [h1]

/-- Evaluation of one inner-loop step: option equal to the probe is recorded
and marked dead. -/
lemma lmProcessOption_rec {v m : List Char} {s : List (List Char)}
    {h : List Char} (h1 : h ∉ s) (h2 : h = v) :
    lmProcessOption v (m, s) h = (v, lmInsertSkip s v) := by
  subst h2; unfold lmProcessOption; simp [h1]

/-- Evaluation of one inner-loop step: pruned option. -/
lemma lmProcessOption_prune {v m : List Char} {s : List (List Char)}
    {h : List Char} (h1 : h ∉ s) (h2 : h ≠ v)
    (h3 : v.length > h.length ∨ v ≠ h.take v.length) :
    lmProcessOption v (m, s) h = (m, lmInsertSkip s h) := by
  unfold lmProcessOption; simp [h1, h2, h3]

/-- Evaluation of one inner-loop step: surviving option. -/
lemma lmProcessOption_keep {v m : List Char} {s : List (List Char)}
    {h : List Char} (h1 : h ∉ s) (h2 : h ≠ v)
    (h3 : ¬(v.length > h.length ∨ v ≠ h.take v.length)) :
    lmProcessOption v (m, s) h = (m, s) := by
  unfold lmProcessOption; simp [h1, h2, h3]

/-- An option that survives the inner loop differs from the probe, is at least
as long and agrees with it on the probe's length. -/
lemma lmFold_survivor (v : List Char) :
    ∀ (opts : List (List Char)) (m : List Char) (s : List (List Char)),
      ∀ o ∈ opts, o ∉ (List.foldl (lmProcessOption v) (m, s) opts).2 →
        o ≠ v ∧ v.length ≤ o.length ∧ v = o.take v.length := by
  intro opts
  induction opts with
  | nil => intro m s o ho; simp at ho
  | cons h t ih =>
    intro m s o ho hno
    rw [List.foldl_cons] at hno
    rcases List.mem_cons.mp ho with rfl | hot
    · by_cases h1 : o ∈ s
      · rw [lmProcessOption_mem h1] at hno
        exact absurd (lmFold_skip_mono v t m s h1) hno
      · by_cases h2 : o = v
        · rw [lmProcessOption_rec h1 h2] at hno
          refine absurd (lmFold_skip_mono v t _ _ ?_) hno
          rw [h2]
          exact self_mem_lmInsertSkip s v
        · by_cases h3 : v.length > o.length ∨ v ≠ o.take v.length
          · rw [lmProcessOption_prune h1 h2 h3] at hno
            exact absurd (lmFold_skip_mono v t _ _ (self_mem_lmInsertSkip s o)) hno
          · push_neg at h3
            exact ⟨h2, h3.1, h3.2⟩
    · rcases lmProcessOption_shape v m s h with heq | ⟨_, _, heq⟩ | ⟨_, _, heq⟩ <;>
        rw [heq] at hno
      · exact ih m s o hot hno
      · exact ih h _ o hot hno
      · exact ih m _ o hot hno

/-- An option that can never be pruned by the probe, and is not yet skipped,
is still unskipped after the inner loop. -/
lemma lmFold_keepout (v : List Char) :
    ∀ (opts : List (List Char)) (m : List Char) (s : List (List Char))
      (o : List Char),
      o ∉ s → o ≠ v → v.length ≤ o.length → v = o.take v.length →
      o ∉ (List.foldl (lmProcessOption v) (m, s) opts).2 := by
  intro opts
  induction opts with
  | nil => intro m s o h1 _ _ _; simpa using h1
  | cons h t ih =>
    intro m s o h1 h2 h3 h4
    rw [List.foldl_cons]
    by_cases hh1 : h ∈ s
    · rw [lmProcessOption_mem hh1]
      exact ih m s o h1 h2 h3 h4
    · by_cases hh2 : h = v
      · rw [lmProcessOption_rec hh1 hh2]
        refine ih _ _ o ?_ h2 h3 h4
        intro hc
        rcases mem_lmInsertSkip.mp hc with hc | hc
        · exact h1 hc
        · exact h2 hc
      · by_cases hh3 : v.length > h.length ∨ v ≠ h.take v.length
        · rw [lmProcessOption_prune hh1 hh2 hh3]
          by_cases hho : h = o
          · subst hho
            rcases hh3 with hh3 | hh3
            · omega
            · exact absurd h4.symm (Ne.symm hh3)
          · refine ih _ _ o ?_ h2 h3 h4
            intro hc
            rcases mem_lmInsertSkip.mp hc with hc | hc
            · exact h1 hc
            · exact hho hc.symm
        · rw [lmProcessOption_keep hh1 hh2 hh3]
          exact ih m s o h1 h2 h3 h4

/-- An option equal to the probe matches: its length is bounded by the
remaining source. -/
lemma matching_length_le {full o : List Char}
    (h : o = probe full o.length) : o.length ≤ full.length := by
  have h' := congrArg List.length h
  unfold probe at h'
  rw [List.length_map, List.length_take] at h'
  omega

/-- Master invariant of the outer `longestMatch` loop: starting from a state
whose best match is a recorded matching option dominating all matching options
of length at most `k`, and whose skip set contains no matching option longer
than `k`, the loop returns a matching option from the table that dominates
every matching option (or the empty string when only the empty option could
match). -/
lemma lmLoop_correct (options : List (List Char)) (full : List Char) :
    ∀ (rest : List Char) (k : Nat) (matched : List Char)
      (skip : List (List Char)),
      rest = full.drop k → k ≤ full.length →
      (matched = [] ∨ (matched ∈ options ∧
        matched = probe full matched.length ∧ matched.length ≤ k)) →
      (∀ o ∈ options, o = probe full o.length → o.length ≤ k →
        o.length ≤ matched.length) →
      (∀ o ∈ options, o = probe full o.length → k < o.length → o ∉ skip) →
      skip.Nodup → (∀ x ∈ skip, x ∈ options) →
      (lmLoop options rest (probe full k) matched skip = [] ∨
        (lmLoop options rest (probe full k) matched skip ∈ options ∧
         lmLoop options rest (probe full k) matched skip =
           probe full (lmLoop options rest (probe full k) matched skip).length)) ∧
      (∀ o ∈ options, o = probe full o.length →
        o.length ≤ (lmLoop options rest (probe full k) matched skip).length) := by
  intro rest
  induction rest with
  | nil =>
    intro k matched skip hrest hk hm hdom hsurv hnd hsub
    have hfull : full.length ≤ k := List.drop_eq_nil_iff.mp hrest.symm
    simp only [lmLoop]
    constructor
    · rcases hm with rfl | ⟨h1, h2, _⟩
      · exact Or.inl rfl
      · exact Or.inr ⟨h1, h2⟩
    · intro o ho hmatch
      exact hdom o ho hmatch (le_trans (matching_length_le hmatch) hfull)
  | cons c cs ih =>
    intro k matched skip hrest hk hm hdom hsurv hnd hsub
    have hklt : k < full.length := by
      by_contra hge
      rw [List.drop_eq_nil_of_le (Nat.le_of_not_lt hge)] at hrest
      exact List.cons_ne_nil c cs hrest
    have hrest' := hrest
    rw [List.drop_eq_getElem_cons hklt] at hrest'
    have hceq : c = full.get ⟨k, hklt⟩ := by
      injection hrest'
    have hcs : cs = full.drop (k + 1) := by
      injection hrest' with h₁ h₂
    have hval : probe full k ++ [lowerChar c] = probe full (k + 1) := by
      rw [hceq]
      exact (probe_succ hklt).symm
    have hvlen : (probe full (k + 1)).length = k + 1 := probe_length (by omega)
    simp only [lmLoop]
    rw [hval]
    set v := probe full (k + 1) with hv
    set st := options.foldl (lmProcessOption v) (matched, skip) with hst
    have hm1 := lmFold_matched_cases v options matched skip
    rw [← hst] at hm1
    have hminv : st.1 = [] ∨ (st.1 ∈ options ∧
        st.1 = probe full st.1.length ∧ st.1.length ≤ k + 1) := by
      rcases hm1 with he | ⟨he, hvin⟩
      · rw [he]
        rcases hm with rfl | ⟨h1, h2, h3⟩
        · exact Or.inl rfl
        · exact Or.inr ⟨h1, h2, by omega⟩
      · rw [he]
        refine Or.inr ⟨hvin, ?_, by rw [hvlen]⟩
        rw [hvlen]
    have hmlen : matched.length ≤ st.1.length := by
      rcases hm1 with he | ⟨he, _⟩
      · rw [he]
      · rw [he, hvlen]
        rcases hm with rfl | ⟨_, _, h3⟩
        · simp
        · omega
    have hdom' : ∀ o ∈ options, o = probe full o.length → o.length ≤ k + 1 →
        o.length ≤ st.1.length := by
      intro o ho hmatch hlen
      rcases Nat.lt_or_ge o.length (k + 1) with hlt | hge
      · exact le_trans (hdom o ho hmatch (by omega)) hmlen
      · have holen : o.length = k + 1 := by omega
        have hoeq : o = v := by rw [hmatch, holen]
        have hvin : v ∈ options := hoeq ▸ ho
        have hvskip : v ∉ skip := by
          rw [← hoeq]
          exact hsurv o ho hmatch (by omega)
        have hrec := lmFold_records v options matched skip hvin hvskip
        rw [← hst] at hrec
        rw [hrec, hvlen, holen]
    have hsurv' : ∀ o ∈ options, o = probe full o.length → k + 1 < o.length →
        o ∉ st.2 := by
      intro o ho hmatch hlen
      rw [hst]
      apply lmFold_keepout v options matched skip o
      · exact hsurv o ho hmatch (by omega)
      · intro he
        have := congrArg List.length he
        rw [hvlen] at this
        omega
      · rw [hvlen]; omega
      · rw [hvlen, hmatch, probe_take (Nat.le_of_lt hlen)]
    have hnd' : st.2.Nodup := by
      rw [hst]
      exact lmFold_skip_nodup v options matched skip hnd
    have hsub' : ∀ x ∈ st.2, x ∈ options := by
      intro x hx
      rw [hst] at hx
      rcases lmFold_skip_sub v options matched skip x hx with h | h
      · exact hsub x h
      · exact h
    by_cases hbreak : st.2.length = options.length
    · rw [if_pos hbreak]
      constructor
      · rcases hminv with he | ⟨h1, h2, _⟩
        · exact Or.inl he
        · exact Or.inr ⟨h1, h2⟩
      · intro o ho hmatch
        by_cases hlen : o.length ≤ k + 1
        · exact hdom' o ho hmatch hlen
        · exact absurd (all_mem_of_length_eq hnd' hsub' hbreak o ho)
            (hsurv' o ho hmatch (by omega))
    · rw [if_neg hbreak]
      exact ih (k + 1) st.1 st.2 hcs (by omega) hminv hdom' hsurv' hnd' hsub'

/-- Correctness of `longestMatch`: the result is empty or a matching option of
the table, and it dominates in length every option that matches the lower-cased
source text at the cursor. -/
lemma longestMatch_spec (source : List Char) (ic : Cursor)
    (options : List (List Char)) :
    (longestMatch source ic options = [] ∨
      (longestMatch source ic options ∈ options ∧
       longestMatch source ic options =
         probe (source.drop ic.pointer)
           (longestMatch source ic options).length)) ∧
    (∀ o ∈ options, o = probe (source.drop ic.pointer) o.length →
      o.length ≤ (longestMatch source ic options).length) := by
  have h := lmLoop_correct options (source.drop ic.pointer)
    (source.drop ic.pointer) 0 [] []
    (by rw [List.drop_zero]) (Nat.zero_le _) (Or.inl rfl)
    (fun o _ _ hl => by simpa using hl)
    (fun o _ _ _ => List.not_mem_nil o)
    List.nodup_nil (fun x hx => absurd hx (List.not_mem_nil x))
  rw [probe_zero] at h
  exact h

/-- A nonempty `longestMatch` result is an option of the table equal to the
lower-cased source text of its own length at the cursor. -/
lemma longestMatch_matches {source : List Char} {ic : Cursor}
    {options : List (List Char)} (h : longestMatch source ic options ≠ []) :
    longestMatch source ic options ∈ options ∧
    longestMatch source ic options =
      probe (source.drop ic.pointer) (longestMatch source ic options).length :=
  ((longestMatch_spec source ic options).1).resolve_left h

/-! ## Equivalence of the two revisions of `longestMatch` -/

/-- Step evaluation for the src/unnamed/part_000 inner loop: skipped option. -/
lemma lmProcessOptionP0_mem {v m : List Char} {s : List (List Char)}
    {h : List Char} (h1 : h ∈ s) : lmProcessOptionP0 v (m, s) h = (m, s) := by
  unfold lmProcessOptionP0; simp [h1]

/-- Step evaluation for the src/unnamed/part_000 inner loop: recording. -/
lemma lmProcessOptionP0_rec {v m : List Char} {s : List (List Char)}
    {h : List Char} (h1 : h ∉ s) (h2 : h = v) :
    lmProcessOptionP0 v (m, s) h =
      (if v.length > m.length then v else m, lmInsertSkip s v) := by
  subst h2; unfold lmProcessOptionP0; simp [h1]

/-- Step evaluation for the src/unnamed/part_000 inner loop: pruning. -/
lemma lmProcessOptionP0_prune {v m : List Char} {s : List (List Char)}
    {h : List Char} (h1 : h ∉ s) (h2 : h ≠ v)
    (h3 : v.length > h.length ∨ v ≠ h.take v.length) :
    lmProcessOptionP0 v (m, s) h = (m, lmInsertSkip s h) := by
  unfold lmProcessOptionP0; simp [h1, h2, h3]

/-- Step evaluation for the src/unnamed/part_000 inner loop: kept option. -/
lemma lmProcessOptionP0_keep {v m : List Char} {s : List (List Char)}
    {h : List Char} (h1 : h ∉ s) (h2 : h ≠ v)
    (h3 : ¬(v.length > h.length ∨ v ≠ h.take v.length)) :
    lmProcessOptionP0 v (m, s) h = (m, s) := by
  unfold lmProcessOptionP0; simp [h1, h2, h3]

/-- The two inner option loops coincide whenever the incoming best match is
shorter than the probe, or equal to it as a string: a newly recorded option has
exactly the probe's length, so the length test of the earlier revision is
always satisfied when it matters. -/
lemma lmFoldP0_eq (v : List Char) :
    ∀ (opts : List (List Char)) (m : List Char) (s : List (List Char)),
      m.length ≤ v.length → (m.length = v.length → m = v) →
      List.foldl (lmProcessOptionP0 v) (m, s) opts =
        List.foldl (lmProcessOption v) (m, s) opts := by
  intro opts
  induction opts with
  | nil => intro m s _ _; rfl
  | cons h t ih =>
    intro m s hle heq
    rw [List.foldl_cons, List.foldl_cons]
    by_cases h1 : h ∈ s
    · rw [lmProcessOption_mem h1, lmProcessOptionP0_mem h1]
      exact ih m s hle heq
    · by_cases h2 : h = v
      · rw [lmProcessOption_rec h1 h2, lmProcessOptionP0_rec h1 h2]
        rcases Nat.lt_or_ge m.length v.length with hlt | hge
        · rw [if_pos hlt]
          exact ih v _ (le_refl _) (fun _ => rfl)
        · have hme : m = v := heq (by omega)
          rw [if_neg (by omega), hme]
          exact ih v _ (le_refl _) (fun _ => rfl)
      · by_cases h3 : v.length > h.length ∨ v ≠ h.take v.length
        · rw [lmProcessOption_prune h1 h2 h3, lmProcessOptionP0_prune h1 h2 h3]
          exact ih m _ hle heq
        · rw [lmProcessOption_keep h1 h2 h3, lmProcessOptionP0_keep h1 h2 h3]
          exact ih m s hle heq

/-- The two outer loops coincide. -/
lemma lmLoopP0_eq (options : List (List Char)) :
    ∀ (rest value matched : List Char) (skip : List (List Char)),
      matched.length ≤ value.length →
      (matched.length = value.length → matched = value) →
      lmLoopP0 options rest value matched skip =
        lmLoop options rest value matched skip := by
  intro rest
  induction rest with
  | nil => intro value matched skip _ _; rfl
  | cons c cs ih =>
    intro value matched skip hle heq
    simp only [lmLoopP0, lmLoop]
    have hvl : (value ++ [lowerChar c]).length = value.length + 1 := by
      simp
    rw [lmFoldP0_eq (value ++ [lowerChar c]) options matched skip
      (by omega) (fun hh => absurd hh (by omega))]
    set st := options.foldl (lmProcessOption (value ++ [lowerChar c]))
      (matched, skip) with hst
    have hcases := lmFold_matched_cases (value ++ [lowerChar c]) options
      matched skip
    rw [← hst] at hcases
    by_cases hbreak : st.2.length = options.length
    · rw [if_pos hbreak, if_pos hbreak]
    · rw [if_neg hbreak, if_neg hbreak]
      apply ih
      · rcases hcases with he | ⟨he, _⟩ <;> (rw [he]; try omega)
      · intro hlen
        rcases hcases with he | ⟨he, _⟩
        · rw [he] at hlen
          exact absurd hlen (by omega)
        · rw [he]

/-- The two revisions of `longestMatch` agree on every input. -/
lemma longestMatchP0_eq (source : List Char) (ic : Cursor)
    (options : List (List Char)) :
    longestMatchP0 source ic options = longestMatch source ic options := by
  unfold longestMatchP0 longestMatch
  exact lmLoopP0_eq options _ [] [] [] (Nat.le_refl 0) (fun _ => rfl)

/-! ## Agreement of the checked longest-match with the total model -/

lemma lmProcessOptionC_none (v : List Char) :
    ∀ (opts : List (List Char)),
      List.foldl (lmProcessOptionC v) none opts = none := by
  intro opts
  induction opts with
  | nil => rfl
  | cons h t ih => rw [List.foldl_cons]; exact ih

/-- The checked inner loop agrees with the total one as long as every
not-yet-skipped option is at least as long as the probe (no out-of-range
slice). -/
lemma lmFoldC_eq (v : List Char) :
    ∀ (opts : List (List Char)) (m : List Char) (s : List (List Char)),
      (∀ o ∈ opts, o ∉ s → v.length ≤ o.length) →
      List.foldl (lmProcessOptionC v) (some (m, s)) opts =
        some (List.foldl (lmProcessOption v) (m, s) opts) := by
  intro opts
  induction opts with
  | nil => intro m s _; rfl
  | cons h t ih =>
    intro m s hlen
    rw [List.foldl_cons, List.foldl_cons]
    by_cases h1 : h ∈ s
    · have hc : lmProcessOptionC v (some (m, s)) h = some (m, s) := by
        unfold lmProcessOptionC; simp [h1]
      rw [hc, lmProcessOption_mem h1]
      exact ih m s (fun o ho hs => hlen o (List.mem_cons_of_mem _ ho) hs)
    · by_cases h2 : h = v
      · have hc : lmProcessOptionC v (some (m, s)) h =
            some (v, lmInsertSkip s v) := by
          subst h2; unfold lmProcessOptionC; simp [h1]
        rw [hc, lmProcessOption_rec h1 h2]
        refine ih v _ (fun o ho hs => hlen o (List.mem_cons_of_mem _ ho) ?_)
        intro hos
        exact hs (lmInsertSkip_subset _ _ hos)
      · have hhlen : v.length ≤ h.length :=
          hlen h (List.mem_cons_self _ _) h1
        by_cases h4 : v = h.take v.length
        · have hc : lmProcessOptionC v (some (m, s)) h = some (m, s) := by
            have hcond : ¬ (v ≠ h.take v.length) := fun hcc => hcc h4
            unfold lmProcessOptionC
            simp [h1, h2, Nat.not_lt.mpr hhlen, hcond]
          rw [hc, lmProcessOption_keep h1 h2 (by push_neg; exact ⟨by omega, h4⟩)]
          exact ih m s (fun o ho hs => hlen o (List.mem_cons_of_mem _ ho) hs)
        · have hc : lmProcessOptionC v (some (m, s)) h =
              some (m, lmInsertSkip s h) := by
            unfold lmProcessOptionC
            simp [h1, h2, Nat.not_lt.mpr hhlen, h4]
          rw [hc, lmProcessOption_prune h1 h2 (Or.inr h4)]
          refine ih m _ (fun o ho hs => hlen o (List.mem_cons_of_mem _ ho) ?_)
          intro hos
          exact hs (lmInsertSkip_subset _ _ hos)

/-- The checked outer loop agrees with the total one as long as every
surviving option is strictly longer than the probe built so far. -/
lemma lmLoopC_eq (options : List (List Char)) :
    ∀ (rest value matched : List Char) (skip : List (List Char)),
      (∀ o ∈ options, o ∉ skip → value.length + 1 ≤ o.length) →
      lmLoopC options rest value matched skip =
        some (lmLoop options rest value matched skip) := by
  intro rest
  induction rest with
  | nil => intro value matched skip _; rfl
  | cons c cs ih =>
    intro value matched skip hinv
    simp only [lmLoopC, lmLoop]
    have hvl : (value ++ [lowerChar c]).length = value.length + 1 := by
      simp
    set st := options.foldl (lmProcessOption (value ++ [lowerChar c]))
      (matched, skip) with hst
    have hfold := lmFoldC_eq (value ++ [lowerChar c]) options matched skip
      (fun o ho hs => by rw [hvl]; exact hinv o ho hs)
    rw [← hst] at hfold
    rw [hfold]
    show (if st.2.length = options.length then some st.1
      else lmLoopC options cs (value ++ [lowerChar c]) st.1 st.2) =
      some (if st.2.length = options.length then st.1
        else lmLoop options cs (value ++ [lowerChar c]) st.1 st.2)
    by_cases hbreak : st.2.length = options.length
    · rw [if_pos hbreak, if_pos hbreak]
    · rw [if_neg hbreak, if_neg hbreak]
      refine ih _ st.1 st.2 ?_
      intro o ho hs
      have hsv := lmFold_survivor (value ++ [lowerChar c]) options matched skip
        o ho (by rw [← hst] at *; exact hs)
      rcases hsv with ⟨hne, hge, htake⟩
      rcases Nat.lt_or_ge (value.length + 1) o.length with hlt | hge'
      · omega
      · have holen : o.length = (value ++ [lowerChar c]).length := by omega
        have : o = value ++ [lowerChar c] := by
          rw [htake, ← holen, List.take_length]
        exact absurd this hne

/-- The checked `longestMatch` agrees with the total one whenever no option is
the empty string. -/
lemma longestMatchC_eq {options : List (List Char)}
    (hopt : ∀ o ∈ options, o ≠ []) (source : List Char) (ic : Cursor) :
    longestMatchC source ic options = some (longestMatch source ic options) := by
  unfold longestMatchC longestMatch
  refine lmLoopC_eq options _ [] [] [] ?_
  intro o ho _
  have h0 : 0 < o.length := List.length_pos.mpr (hopt o ho)
  simp only [List.length_nil]
  omega

/-! ## Progress: every successful strategy application advances the pointer -/

/-- The delimited scanning loop never moves the pointer backwards. -/
lemma lexCharDelimLoop_pointer (delimiter : Char) (startLoc : Location) :
    ∀ (n : Nat) (rest : List Char), rest.length ≤ n →
      ∀ (ptr col line : Nat) (value : List Char) (t : Token) (c' : Cursor),
        lexCharDelimLoop delimiter startLoc ptr col line value rest =
          some (t, c') → ptr ≤ c'.pointer := by
  intro n
  induction n with
  | zero =>
    intro rest hlen ptr col line value t c' h
    rw [List.length_eq_zero.mp (Nat.le_zero.mp hlen)] at h
    simp [lexCharDelimLoop] at h
  | succ n ih =>
    intro rest hlen ptr col line value t c' h
    cases rest with
    | nil => simp [lexCharDelimLoop] at h
    | cons c cs =>
      cases cs with
      | nil =>
        simp only [lexCharDelimLoop] at h
        split_ifs at h
        simp only [Option.some.injEq, Prod.mk.injEq] at h
        have hp : ptr = c'.pointer := congrArg Cursor.pointer h.2
        omega
      | cons c2 rest'' =>
        simp only [lexCharDelimLoop] at h
        split_ifs at h <;>
          first
          | (simp only [Option.some.injEq, Prod.mk.injEq] at h
             have hp : ptr = c'.pointer := congrArg Cursor.pointer h.2
             omega)
          | exact absurd h (by simp)
          | (have hr := ih rest'' (by simp at hlen; omega) _ _ _ _ _ _ h
             omega)
          | (have hr := ih (c2 :: rest'') (by simp at hlen ⊢; omega) _ _ _ _ _ _ h
             omega)

/-- A successful delimited scan strictly advances the pointer. -/
lemma lexCharacterDelimited_pointer {source : List Char} {ic : Cursor}
    {delimiter : Char} {t : Token} {c' : Cursor}
    (h : lexCharacterDelimited source ic delimiter = some (t, c')) :
    ic.pointer < c'.pointer := by
  unfold lexCharacterDelimited at h
  split at h
  · simp at h
  · split_ifs at h
    have := lexCharDelimLoop_pointer delimiter ic.loc _ _
      (Nat.le_refl _) _ _ _ _ _ _ h
    omega

/-- The identifier accumulation loop never moves the pointer backwards, and
accumulates exactly the consumed characters. -/
lemma lexIdentLoop_spec :
    ∀ (rest : List Char) (ptr col : Nat) (value : List Char),
      ptr ≤ (lexIdentLoop ptr col value rest).1 ∧
      (lexIdentLoop ptr col value rest).1 - ptr ≤ rest.length ∧
      (lexIdentLoop ptr col value rest).2.2 =
        value ++ rest.take ((lexIdentLoop ptr col value rest).1 - ptr) := by
  intro rest
  induction rest with
  | nil =>
    intro ptr col value
    simp [lexIdentLoop]
  | cons c cs ih =>
    intro ptr col value
    simp only [lexIdentLoop]
    by_cases hc : isIdentContinuation c
    · rw [if_pos hc]
      obtain ⟨h1, h2, h3⟩ := ih (ptr + 1) (col + 1) (value ++ [c])
      refine ⟨by omega, by simp; omega, ?_⟩
      rw [h3]
      have hk : (lexIdentLoop (ptr + 1) (col + 1) (value ++ [c]) cs).1 - ptr =
          ((lexIdentLoop (ptr + 1) (col + 1) (value ++ [c]) cs).1 - (ptr + 1)) + 1 := by
        omega
      rw [hk, List.take_succ_cons, List.append_assoc]
      rfl
    · rw [if_neg hc]
      simp

/-- The numeric scanning loop never moves the pointer backwards. -/
lemma lexNumericLoop_pointer (icPointer : Nat) :
    ∀ (n : Nat) (rest : List Char), rest.length ≤ n →
      ∀ (ptr col : Nat) (pf ef : Bool) (p q : Nat),
        lexNumericLoop icPointer ptr col pf ef rest = some (p, q) →
        ptr ≤ p := by
  intro n
  induction n with
  | zero =>
    intro rest hlen ptr col pf ef p q h
    rw [List.length_eq_zero.mp (Nat.le_zero.mp hlen)] at h
    simp only [lexNumericLoop, Option.some.injEq, Prod.mk.injEq] at h
    omega
  | succ n ih =>
    intro rest hlen ptr col pf ef p q h
    cases rest with
    | nil =>
      simp only [lexNumericLoop, Option.some.injEq, Prod.mk.injEq] at h
      omega
    | cons c cs =>
      cases cs with
      | nil =>
        simp only [lexNumericLoop] at h
        split_ifs at h <;>
          (simp only [Option.some.injEq, Prod.mk.injEq] at h
           omega)
      | cons c2 rest'' =>
        simp only [lexNumericLoop] at h
        split_ifs at h <;>
          first
          | (simp only [Option.some.injEq, Prod.mk.injEq] at h
             omega)
          | exact absurd h (by simp)
          | (have hr := ih rest'' (by simp at hlen; omega) _ _ _ _ _ _ h
             omega)
          | (have hr := ih (c2 :: rest'') (by simp at hlen ⊢; omega) _ _ _ _ _ _ h
             omega)

/-- Progress for each of the five strategies: success strictly advances the
cursor pointer. -/
lemma runStrategy_progress (id : StrategyId) (source : List Char) (ic : Cursor)
    (out : Option Token) (c' : Cursor)
    (h : runStrategy id source ic = some (out, c')) :
    ic.pointer < c'.pointer := by
  cases id with
  | keyword =>
    simp only [runStrategy, lexKeyword] at h
    by_cases hm : longestMatch source ic keywords = []
    · rw [if_pos hm] at h; simp at h
    · rw [if_neg hm] at h
      simp only [Option.some.injEq, Prod.mk.injEq] at h
      have hpos : 0 < (longestMatch source ic keywords).length :=
        List.length_pos.mpr hm
      have hp : ic.pointer + (longestMatch source ic keywords).length =
          c'.pointer := congrArg Cursor.pointer h.2
      omega
  | symbol =>
    simp only [runStrategy, lexSymbol] at h
    split at h
    · simp at h
    · rename_i c rest hdrop
      split_ifs at h with h1 h2 h3 hm
      · simp only [Option.some.injEq, Prod.mk.injEq] at h
        have hp : ic.pointer + 1 = c'.pointer := congrArg Cursor.pointer h.2
        omega
      · simp only [Option.some.injEq, Prod.mk.injEq] at h
        have hp : ic.pointer + 1 = c'.pointer := congrArg Cursor.pointer h.2
        omega
      · simp only [Option.some.injEq, Prod.mk.injEq] at h
        have hp : ic.pointer + 1 = c'.pointer := congrArg Cursor.pointer h.2
        omega
      · simp only [Option.some.injEq, Prod.mk.injEq] at h
        have hpos : 0 < (longestMatch source ic symbols).length :=
          List.length_pos.mpr hm
        have hp : ic.pointer + (longestMatch source ic symbols).length =
            c'.pointer := congrArg Cursor.pointer h.2
        omega
  | string =>
    simp only [runStrategy, lexString, Option.map] at h
    cases hdel : lexCharacterDelimited source ic quoteChar with
    | none => rw [hdel] at h; simp at h
    | some tc =>
      rw [hdel] at h
      simp only [Option.some.injEq, Prod.mk.injEq] at h
      have := lexCharacterDelimited_pointer hdel
      have hp : tc.2.pointer = c'.pointer := congrArg Cursor.pointer h.2
      omega
  | numeric =>
    simp only [runStrategy, lexNumeric] at h
    split at h
    · simp at h
    · rename_i p q hloop
      by_cases hpe : p = ic.pointer
      · rw [if_pos hpe] at h; simp at h
      · rw [if_neg hpe] at h
        simp only [Option.some.injEq, Prod.mk.injEq] at h
        have hle := lexNumericLoop_pointer ic.pointer
          (source.drop ic.pointer).length (source.drop ic.pointer)
          (Nat.le_refl _) _ _ _ _ _ _ hloop
        have hp : p = c'.pointer := congrArg Cursor.pointer h.2
        omega
  | identifier =>
    simp only [runStrategy, lexIdentifier] at h
    split at h
    · rename_i t c'' hdel
      simp only [Option.some.injEq, Prod.mk.injEq] at h
      have := lexCharacterDelimited_pointer hdel
      have hp : c''.pointer = c'.pointer := congrArg Cursor.pointer h.2
      omega
    · rename_i hdel
      split at h
      · simp at h
      · rename_i c rest hdrop
        by_cases halpha : ¬ (('A' ≤ c ∧ c ≤ 'Z') ∨ ('a' ≤ c ∧ c ≤ 'z'))
        · rw [if_pos halpha] at h; simp at h
        · rw [if_neg halpha] at h
          by_cases hval :
              (lexIdentLoop (ic.pointer + 1) (ic.loc.col + 1) [c] rest).2.2 = []
          · rw [if_pos hval] at h; simp at h
          · rw [if_neg hval] at h
            simp only [Option.some.injEq, Prod.mk.injEq] at h
            obtain ⟨h1, _, _⟩ :=
              lexIdentLoop_spec rest (ic.pointer + 1) (ic.loc.col + 1) [c]
            have hp : (lexIdentLoop (ic.pointer + 1) (ic.loc.col + 1)
                [c] rest).1 = c'.pointer := congrArg Cursor.pointer h.2
            omega

/-- Progress for the driver's strategy loop: whichever strategy succeeds, the
cursor strictly advances. -/
lemma tryStrategies_progress :
    ∀ (ids : List StrategyId) (source : List Char) (cur : Cursor)
      (out : Option Token) (c' : Cursor),
      tryStrategies ids source cur = some (out, c') →
      cur.pointer < c'.pointer := by
  intro ids
  induction ids with
  | nil => intro source cur out c' h; simp [tryStrategies] at h
  | cons id rest ih =>
    intro source cur out c' h
    simp only [tryStrategies] at h
    split at h
    · rename_i r hrs
      have hr : r = (out, c') := Option.some.inj h
      rw [hr] at hrs
      exact runStrategy_progress id source cur out c' hrs
    · exact ih source cur out c' h

/-- Fuel exceeding the remaining source length is sufficient: the driver loop
never runs out. -/
lemma lexLoop_no_outOfFuel :
    ∀ (fuel : Nat) (source : List Char) (tokens : List Token) (cur : Cursor),
      source.length - cur.pointer < fuel →
      lexLoop fuel source tokens cur ≠ .outOfFuel := by
  intro fuel
  induction fuel with
  | zero => intro source tokens cur h; omega
  | succ fuel ih =>
    intro source tokens cur h
    simp only [lexLoop]
    by_cases hlt : cur.pointer < source.length
    · rw [if_pos hlt]
      cases htry : tryStrategies lexers source cur with
      | none =>
        intro hc
        exact LexResult.noConfusion hc
      | some r =>
        obtain ⟨tok?, newCur⟩ := r
        have hprog := tryStrategies_progress lexers source cur tok? newCur htry
        exact ih source _ newCur (by omega)
    · rw [if_neg hlt]
      intro hc
      exact LexResult.noConfusion hc

/-- `lex` never exhausts its fuel. -/
lemma lex_no_outOfFuel (source : List Char) : lex source ≠ .outOfFuel := by
  unfold lex
  exact lexLoop_no_outOfFuel (source.length + 1) source [] ⟨0, ⟨0, 0⟩⟩
    (by omega)

/-- If every strategy declines, the strategy loop declines. -/
lemma tryStrategies_all_none {source : List Char} {cur : Cursor} :
    ∀ ids : List StrategyId,
      (∀ id ∈ ids, runStrategy id source cur = none) →
      tryStrategies ids source cur = none := by
  intro ids
  induction ids with
  | nil => intro _; rfl
  | cons id rest ih =>
    intro hall
    simp only [tryStrategies]
    rw [hall id (List.mem_cons_self _ _)]
    exact ih (fun i hi => hall i (List.mem_cons_of_mem _ hi))

/-- The driver's error path: at an in-range position where all five strategies
decline, the pass fails with the cursor's location and, as hint, the value of
the most recently accepted token. -/
lemma lexLoop_err (source : List Char) (tokens : List Token) (cur : Cursor)
    (fuel : Nat) (hlt : cur.pointer < source.length)
    (hall : ∀ id, runStrategy id source cur = none) :
    lexLoop (fuel + 1) source tokens cur = .err cur.loc (lastHint tokens) := by
  simp only [lexLoop]
  rw [if_pos hlt, tryStrategies_all_none lexers (fun id _ => hall id)]

/-! ## Agreement of the checked mirrors with the total model -/

/-- No keyword is the empty string. -/
lemma keywords_ne : ∀ o ∈ keywords, o ≠ [] := by decide

/-- No symbol is the empty string. -/
lemma symbols_ne : ∀ o ∈ symbols, o ≠ [] := by decide

lemma lexKeywordC_eq (source : List Char) (ic : Cursor) :
    lexKeywordC source ic = some (lexKeyword source ic) := by
  unfold lexKeywordC lexKeyword
  rw [longestMatchC_eq keywords_ne]
  by_cases hm : longestMatch source ic keywords = [] <;> simp [hm]

lemma lexSymbolC_eq (source : List Char) (ic : Cursor)
    (hlt : ic.pointer < source.length) :
    lexSymbolC source ic = some (lexSymbol source ic) := by
  unfold lexSymbolC lexSymbol
  cases hdrop : source.drop ic.pointer with
  | nil =>
    rw [List.drop_eq_nil_iff] at hdrop
    omega
  | cons c rest =>
    by_cases h1 : c = newlineChar
    · simp only [if_pos h1]
    · by_cases h2 : c = tabChar
      · simp only [if_neg h1, if_pos h2]
      · by_cases h3 : c = spaceChar
        · simp only [if_neg h1, if_neg h2, if_pos h3]
        · simp only [if_neg h1, if_neg h2, if_neg h3]
          rw [longestMatchC_eq symbols_ne]
          by_cases hm : longestMatch source ic symbols = [] <;> simp [hm]

lemma lexStringC_eq (source : List Char) (ic : Cursor)
    (hle : ic.pointer ≤ source.length) :
    lexStringC source ic = some (lexString source ic) := by
  unfold lexStringC lexString lexCharacterDelimitedC
  rw [if_pos hle]
  cases lexCharacterDelimited source ic quoteChar with
  | none => rfl
  | some tc =>
    obtain ⟨t, c'⟩ := tc
    rfl

lemma lexIdentifierC_eq (source : List Char) (ic : Cursor)
    (hlt : ic.pointer < source.length) :
    lexIdentifierC source ic = some (lexIdentifier source ic) := by
  unfold lexIdentifierC lexIdentifier lexCharacterDelimitedC
  rw [if_pos (Nat.le_of_lt hlt)]
  cases lexCharacterDelimited source ic dquoteChar with
  | some tc =>
    obtain ⟨t, c'⟩ := tc
    rfl
  | none =>
    cases hdrop : source.drop ic.pointer with
    | nil =>
      rw [List.drop_eq_nil_iff] at hdrop
      omega
    | cons c rest =>
      by_cases halpha : ¬ (('A' ≤ c ∧ c ≤ 'Z') ∨ ('a' ≤ c ∧ c ≤ 'z'))
      · simp [halpha]
      · by_cases hval :
            (lexIdentLoop (ic.pointer + 1) (ic.loc.col + 1) [c] rest).2.2 = []
        · simp [halpha, hval]
        · simp [halpha, hval]

lemma runStrategyC_eq (id : StrategyId) (source : List Char) (ic : Cursor)
    (hlt : ic.pointer < source.length) :
    runStrategyC id source ic = some (runStrategy id source ic) := by
  cases id with
  | keyword => exact lexKeywordC_eq source ic
  | symbol => exact lexSymbolC_eq source ic hlt
  | string => exact lexStringC_eq source ic (Nat.le_of_lt hlt)
  | numeric => rfl
  | identifier => exact lexIdentifierC_eq source ic hlt

lemma tryStrategiesC_eq (source : List Char) (cur : Cursor)
    (hlt : cur.pointer < source.length) :
    ∀ ids, tryStrategiesC ids source cur = some (tryStrategies ids source cur) := by
  intro ids
  induction ids with
  | nil => rfl
  | cons id rest ih =>
    simp only [tryStrategiesC, tryStrategies]
    rw [runStrategyC_eq id source cur hlt]
    cases runStrategy id source cur with
    | some r => rfl
    | none => exact ih

/-- The checked driver loop agrees with the total one on every input: every
string index in the pass is within bounds. -/
lemma lexLoopC_eq (source : List Char) :
    ∀ (fuel : Nat) (tokens : List Token) (cur : Cursor),
      lexLoopC fuel source tokens cur = some (lexLoop fuel source tokens cur) := by
  intro fuel
  induction fuel with
  | zero => intro tokens cur; rfl
  | succ fuel ih =>
    intro tokens cur
    simp only [lexLoopC, lexLoop]
    by_cases hlt : cur.pointer < source.length
    · rw [if_pos hlt, if_pos hlt, tryStrategiesC_eq source cur hlt lexers]
      cases tryStrategies lexers source cur with
      | none => rfl
      | some r =>
        obtain ⟨tok?, newCur⟩ := r
        exact ih _ newCur
    · rw [if_neg hlt, if_neg hlt]

/-- The checked lexer agrees with the total one on every input. -/
lemma lexC_eq (source : List Char) : lexC source = some (lex source) :=
  lexLoopC_eq source (source.length + 1) [] ⟨0, ⟨0, 0⟩⟩

/-! ## Values of keyword and unquoted identifier tokens -/

/-- A successful `lexKeyword` produces a Keyword token whose value is the
lower-casing of the matched source text. -/
lemma lexKeyword_value {source : List Char} {ic : Cursor} {out : Option Token}
    {c' : Cursor} (h : lexKeyword source ic = some (out, c')) :
    ∃ t, out = some t ∧ t.kind = .KeywordKind ∧
      t.value = probe (source.drop ic.pointer) (c'.pointer - ic.pointer) := by
  unfold lexKeyword at h
  by_cases hm : longestMatch source ic keywords = []
  · rw [if_pos hm] at h; simp at h
  · rw [if_neg hm] at h
    simp only [Option.some.injEq, Prod.mk.injEq] at h
    refine ⟨⟨longestMatch source ic keywords, .KeywordKind, ic.loc⟩,
      h.1.symm, rfl, ?_⟩
    have hp : ic.pointer + (longestMatch source ic keywords).length =
        c'.pointer := congrArg Cursor.pointer h.2
    have hk : c'.pointer - ic.pointer =
        (longestMatch source ic keywords).length := by omega
    rw [hk]
    exact (longestMatch_matches hm).2

/-- A successful unquoted `lexIdentifier` produces an Identifier token whose
value is the lower-casing of the matched source text. -/
lemma lexIdentifier_value {source : List Char} {ic : Cursor} {t : Token}
    {c' : Cursor}
    (hdel : lexCharacterDelimited source ic dquoteChar = none)
    (h : lexIdentifier source ic = some (some t, c')) :
    t.kind = .IdentifierKind ∧
    t.value = probe (source.drop ic.pointer) (c'.pointer - ic.pointer) := by
  unfold lexIdentifier at h
  split at h
  · rename_i t0 c0 hdel2
    rw [hdel] at hdel2
    exact absurd hdel2 (by simp)
  · split at h
    · simp at h
    · rename_i c rest hdrop
      by_cases halpha : ¬ (('A' ≤ c ∧ c ≤ 'Z') ∨ ('a' ≤ c ∧ c ≤ 'z'))
      · rw [if_pos halpha] at h; simp at h
      · rw [if_neg halpha] at h
        by_cases hval :
            (lexIdentLoop (ic.pointer + 1) (ic.loc.col + 1) [c] rest).2.2 = []
        · rw [if_pos hval] at h; simp at h
        · rw [if_neg hval] at h
          simp only [Option.some.injEq, Prod.mk.injEq] at h
          obtain ⟨ht, hc'⟩ := h
          obtain ⟨hp1, hp2, hp3⟩ :=
            lexIdentLoop_spec rest (ic.pointer + 1) (ic.loc.col + 1) [c]
          have hptr : (lexIdentLoop (ic.pointer + 1) (ic.loc.col + 1)
              [c] rest).1 = c'.pointer := congrArg Cursor.pointer hc'
          rw [← ht]
          refine ⟨rfl, ?_⟩
          show ((lexIdentLoop (ic.pointer + 1) (ic.loc.col + 1)
            [c] rest).2.2).map lowerChar =
            probe (source.drop ic.pointer) (c'.pointer - ic.pointer)
          rw [hp3]
          unfold probe
          rw [hdrop]
          have hk : c'.pointer - ic.pointer =
              ((lexIdentLoop (ic.pointer + 1) (ic.loc.col + 1)
                [c] rest).1 - (ic.pointer + 1)) + 1 := by omega
          rw [hk, List.take_succ_cons]
          rfl

/-- The driver consults the keyword strategy first: whenever it succeeds, its
result is the result of the whole strategy loop. -/
lemma tryStrategies_keyword_first {source : List Char} {cur : Cursor}
    {r : Option Token × Cursor} (h : lexKeyword source cur = some r) :
    tryStrategies lexers source cur = some r := by
  simp only [lexers, tryStrategies, runStrategy]
  rw [h]

/-! ## The claims -/

/-- C1: the claim says lexing `'it''s'` yields exactly one String token with
value `it's`, the escaped delimiter contributing one character and the whole
input being consumed.  The code disagrees: the escape branch of
`lexCharacterDelimited` appends the delimiter and then, lacking the `continue`
its own comment announces, falls through and appends it a second time, and the
terminating delimiter is never consumed (the cursor is returned pointing at
it).  So `lexString` yields a String token with value `it''s` and cursor 6,
and the whole pass then fails at line 0, column 6 with hint `it''s`. -/
theorem claim_C1 :
    lexString "'it''s'".toList ⟨0, ⟨0, 0⟩⟩ =
      some (some ⟨"it''s".toList, .StringKind, ⟨0, 0⟩⟩, ⟨6, ⟨0, 6⟩⟩) ∧
    lex "'it''s'".toList = .err ⟨0, 6⟩ (some "it''s".toList) := by
  constructor
  · decide
  · decide

/-- C2: the claim says lexing `"a""b"` yields exactly one Identifier-kind
token with value `a"b`.  The code disagrees: `lexCharacterDelimited` always
builds a `StringKind` token (returned as-is by `lexIdentifier`), the escaped
delimiter is appended twice, and the closing delimiter is not consumed, so the
first token is a String-kind token with value `a""b` and the whole pass then
fails at line 0, column 5 with hint `a""b`. -/
theorem claim_C2 :
    lexIdentifier "\"a\"\"b\"".toList ⟨0, ⟨0, 0⟩⟩ =
      some (some ⟨"a\"\"b".toList, .StringKind, ⟨0, 0⟩⟩, ⟨5, ⟨0, 5⟩⟩) ∧
    TokenKind.StringKind ≠ TokenKind.IdentifierKind ∧
    lex "\"a\"\"b\"".toList = .err ⟨0, 5⟩ (some "a\"\"b".toList) := by
  refine ⟨by decide, by decide, by decide⟩

/-- C3 (counterexample): the claim says lexing `1.2.3` yields a Numeric token
`1.2` followed by an UnlexableInput error at line 0, column 3.  In the code
the numeric strategy returns `nil, ic, false` as soon as it sees a second
period, declining entirely rather than stopping before it, so no Numeric token
is produced and the error is not at column 3. -/
theorem claim_C3_counterexample :
    lexNumeric "1.2.3".toList ⟨0, ⟨0, 0⟩⟩ = none ∧
    lex "1.2.3".toList ≠ .err ⟨0, 3⟩ (some "1.2".toList) := by
  refine ⟨by decide, by decide⟩

/-- C3 (amended): lexing `1.2.3` produces no token at all: the numeric
strategy declines wholesale on the second period, every other strategy
declines at position 0, and the pass fails with UnlexableInput at line 0,
column 0 with no hint. -/
theorem claim_C3 :
    lex "1.2.3".toList = .err ⟨0, 0⟩ none ∧
    lexNumericLoop 0 0 0 false false "1.2.3".toList = none := by
  refine ⟨by decide, by decide⟩

/-- C4: for an ASCII source, a cursor and lower-case candidate options,
`longestMatch` returns either the empty string or an option of the table that
is byte-for-byte equal to the lower-casing of the source text of its own
length at the cursor (`probe`), and no matching option is longer than the
returned one; in particular a match is only ever reported when the lower-cased
probe equals the option exactly. -/
theorem claim_C4 (source : List Char) (ic : Cursor)
    (options : List (List Char))
    (hascii : ∀ c ∈ source, c.toNat < 128)
    (hlower : ∀ o ∈ options, ∀ c ∈ o, lowerChar c = c) :
    (longestMatch source ic options = [] ∨
      (longestMatch source ic options ∈ options ∧
       longestMatch source ic options =
         probe (source.drop ic.pointer)
           (longestMatch source ic options).length)) ∧
    (∀ o ∈ options, o = probe (source.drop ic.pointer) o.length →
      o.length ≤ (longestMatch source ic options).length) :=
  longestMatch_spec source ic options

/-- C4 witness: the keyword table at the start of `select`. -/
theorem claim_C4_witness :
    (∀ c ∈ "select".toList, c.toNat < 128) ∧
    (∀ o ∈ keywords, ∀ c ∈ o, lowerChar c = c) ∧
    ((longestMatch "select".toList ⟨0, ⟨0, 0⟩⟩ keywords = [] ∨
      (longestMatch "select".toList ⟨0, ⟨0, 0⟩⟩ keywords ∈ keywords ∧
       longestMatch "select".toList ⟨0, ⟨0, 0⟩⟩ keywords =
         probe ("select".toList.drop (0 : Nat))
           (longestMatch "select".toList ⟨0, ⟨0, 0⟩⟩ keywords).length)) ∧
     (∀ o ∈ keywords, o = probe ("select".toList.drop (0 : Nat)) o.length →
       o.length ≤ (longestMatch "select".toList ⟨0, ⟨0, 0⟩⟩ keywords).length)) :=
  ⟨by decide, by decide,
   claim_C4 "select".toList ⟨0, ⟨0, 0⟩⟩ keywords (by decide) (by decide)⟩

/-- C5 (counterexample): the claim asserts the fixed priority order keyword,
symbol, string, numeric, identifier for the driver loop, citing both
src/lexer.go line 72 and src/unnamed/part_000 line 72.  The earlier revision's
driver consults identifier, keyword, numeric, string, symbol, so there an
input accepted by both the keyword and the identifier strategy is claimed by
the identifier strategy: `select` lexes to an Identifier-kind token (with the
bodiless `lexIdentifier` of that revision modelled from the spec). -/
theorem claim_C5_counterexample :
    part000Lexers ≠ [StrategyId.keyword, .symbol, .string, .numeric,
      .identifier] ∧
    lexP0 "select".toList = .ok [⟨"select".toList, .IdentifierKind, ⟨0, 0⟩⟩] ∧
    TokenKind.IdentifierKind ≠ TokenKind.KeywordKind := by
  refine ⟨by decide, by decide, by decide⟩

/-- C5 (amended): the src/lexer.go driver consults the strategies in the fixed
priority order keyword, symbol, string, numeric, identifier; whenever the
keyword strategy succeeds at a position its result is the strategy loop's
result, and in particular `select` lexes to a Keyword token, not an
Identifier.  (The superseded revision in src/unnamed/part_000 uses the order
identifier, keyword, numeric, string, symbol instead.) -/
theorem claim_C5 :
    lexers = [StrategyId.keyword, .symbol, .string, .numeric, .identifier] ∧
    (∀ (source : List Char) (cur : Cursor) (r : Option Token × Cursor),
      lexKeyword source cur = some r →
      tryStrategies lexers source cur = some r) ∧
    lex "select".toList = .ok [⟨"select".toList, .KeywordKind, ⟨0, 0⟩⟩] :=
  ⟨rfl, fun _ _ _ h => tryStrategies_keyword_first h, by decide⟩

/-- C5 witness: the keyword strategy claims `select` and the strategy loop
returns its result. -/
theorem claim_C5_witness :
    lexKeyword "select".toList ⟨0, ⟨0, 0⟩⟩ =
      some (some ⟨"select".toList, .KeywordKind, ⟨0, 0⟩⟩, ⟨6, ⟨0, 6⟩⟩) ∧
    tryStrategies lexers "select".toList ⟨0, ⟨0, 0⟩⟩ =
      some (some ⟨"select".toList, .KeywordKind, ⟨0, 0⟩⟩, ⟨6, ⟨0, 6⟩⟩) :=
  ⟨by decide, claim_C5.2.1 "select".toList ⟨0, ⟨0, 0⟩⟩ _ (by decide)⟩

/-- C6: when no strategy matches at an in-range position, the driver loop
returns an error (no token list) carrying the cursor's current location and,
as hint, the value of the most recently accepted token if any; in particular
`select # from foo;` fails at line 0, column 7 with hint `select`. -/
theorem claim_C6 :
    (∀ (source : List Char) (tokens : List Token) (cur : Cursor) (fuel : Nat),
      cur.pointer < source.length →
      (∀ id, runStrategy id source cur = none) →
      lexLoop (fuel + 1) source tokens cur = .err cur.loc (lastHint tokens) ∧
      (tokens = [] → lastHint tokens = none) ∧
      (∀ (ts : List Token) (t : Token), tokens = ts ++ [t] →
        lastHint tokens = some t.value)) ∧
    lex "select # from foo;".toList = .err ⟨0, 7⟩ (some "select".toList) := by
  constructor
  · intro source tokens cur fuel hlt hall
    refine ⟨lexLoop_err source tokens cur fuel hlt hall, fun h => by rw [h]; rfl,
      fun ts t h => ?_⟩
    rw [h]
    unfold lastHint
    rw [List.getLast?_concat]
    rfl
  · decide

/-- C6 witness: the general error path at the concrete failing position of
`select # from foo;` (character `#`, one token already accepted). -/
theorem claim_C6_witness :
    ((⟨0, ⟨0, 7⟩⟩ : Cursor).pointer < "#".toList.length) ∧
    lexLoop 1 "#".toList [⟨"select".toList, .KeywordKind, ⟨0, 0⟩⟩]
        ⟨0, ⟨0, 7⟩⟩ =
      .err ⟨0, 7⟩ (lastHint [⟨"select".toList, .KeywordKind, ⟨0, 0⟩⟩]) :=
  ⟨by decide,
   (claim_C6.1 "#".toList [⟨"select".toList, .KeywordKind, ⟨0, 0⟩⟩]
     ⟨0, ⟨0, 7⟩⟩ 0 (by decide) (by intro id; cases id <;> decide)).1⟩

/-- C7: a successful keyword strategy yields a Keyword token whose value is
the lower-casing of the exact source substring it matched, and a successful
unquoted identifier strategy (the double-quote delimited scan having declined)
yields an Identifier token whose value is the lower-casing of the exact source
substring it matched. -/
theorem claim_C7 :
    (∀ (source : List Char) (ic : Cursor) (out : Option Token) (c' : Cursor),
      lexKeyword source ic = some (out, c') →
      ∃ t, out = some t ∧ t.kind = .KeywordKind ∧
        t.value = probe (source.drop ic.pointer) (c'.pointer - ic.pointer)) ∧
    (∀ (source : List Char) (ic : Cursor) (t : Token) (c' : Cursor),
      lexCharacterDelimited source ic dquoteChar = none →
      lexIdentifier source ic = some (some t, c') →
      t.kind = .IdentifierKind ∧
      t.value = probe (source.drop ic.pointer) (c'.pointer - ic.pointer)) :=
  ⟨fun _ _ _ _ h => lexKeyword_value h,
   fun _ _ _ _ hdel h => lexIdentifier_value hdel h⟩

/-- C7 witness: the mixed-case keyword `SeLeCt` and the unquoted identifier
`Ab`, both lower-cased relative to the matched source text. -/
theorem claim_C7_witness :
    lexKeyword "SeLeCt".toList ⟨0, ⟨0, 0⟩⟩ =
      some (some ⟨"select".toList, .KeywordKind, ⟨0, 0⟩⟩, ⟨6, ⟨0, 6⟩⟩) ∧
    (∃ t, (some (⟨"select".toList, .KeywordKind, ⟨0, 0⟩⟩ : Token) = some t ∧
      t.kind = .KeywordKind ∧
      t.value = probe ("SeLeCt".toList.drop (0 : Nat)) (6 - 0))) ∧
    lexIdentifier "Ab".toList ⟨0, ⟨0, 0⟩⟩ =
      some (some ⟨"ab".toList, .IdentifierKind, ⟨0, 0⟩⟩, ⟨2, ⟨0, 2⟩⟩) ∧
    ((⟨"ab".toList, .IdentifierKind, ⟨0, 0⟩⟩ : Token).kind =
        .IdentifierKind ∧
      (⟨"ab".toList, .IdentifierKind, ⟨0, 0⟩⟩ : Token).value =
        probe ("Ab".toList.drop (0 : Nat)) (2 - 0)) :=
  ⟨by decide,
   claim_C7.1 "SeLeCt".toList ⟨0, ⟨0, 0⟩⟩ _ ⟨6, ⟨0, 6⟩⟩ (by decide),
   by decide,
   claim_C7.2 "Ab".toList ⟨0, ⟨0, 0⟩⟩ _ ⟨2, ⟨0, 2⟩⟩ (by decide) (by decide)⟩

/-- C8: progress and termination: every successful strategy application
(whitespace included) returns a cursor with a strictly larger offset, and the
driver loop never exhausts fuel exceeding the remaining input length, i.e. it
terminates within a number of iterations proportional to the input length. -/
theorem claim_C8 :
    (∀ (id : StrategyId) (source : List Char) (ic : Cursor)
      (out : Option Token) (c' : Cursor),
      runStrategy id source ic = some (out, c') → ic.pointer < c'.pointer) ∧
    (∀ (source : List Char) (tokens : List Token) (cur : Cursor) (fuel : Nat),
      source.length - cur.pointer < fuel →
      lexLoop fuel source tokens cur ≠ .outOfFuel) :=
  ⟨runStrategy_progress,
   fun source tokens cur fuel h => lexLoop_no_outOfFuel fuel source tokens cur h⟩

/-- C8 witness: the keyword strategy on `select` advances the cursor offset
from 0 to 6, and fuel `length + 1` completes the pass. -/
theorem claim_C8_witness :
    (runStrategy .keyword "select".toList ⟨0, ⟨0, 0⟩⟩ =
      some (some ⟨"select".toList, .KeywordKind, ⟨0, 0⟩⟩, ⟨6, ⟨0, 6⟩⟩)) ∧
    ((⟨0, ⟨0, 0⟩⟩ : Cursor).pointer < (⟨6, ⟨0, 6⟩⟩ : Cursor).pointer) ∧
    ("select".toList.length - (⟨0, ⟨0, 0⟩⟩ : Cursor).pointer < 7) ∧
    lexLoop 7 "select".toList [] ⟨0, ⟨0, 0⟩⟩ ≠ .outOfFuel :=
  ⟨by decide,
   claim_C8.1 .keyword "select".toList ⟨0, ⟨0, 0⟩⟩
     (some ⟨"select".toList, .KeywordKind, ⟨0, 0⟩⟩) ⟨6, ⟨0, 6⟩⟩ (by decide),
   by decide,
   claim_C8.2 "select".toList [] ⟨0, ⟨0, 0⟩⟩ 7 (by decide)⟩

/-- C9: the src/lexer.go `longestMatch` (which records an equal option by
overwriting the best match unconditionally) and the src/unnamed/part_000
`longestMatch` (which records it only when strictly longer) return the same
result for every source, cursor and option list, because the probe grows one
character per step so every newly recorded match is longer than any previous
one. -/
theorem claim_C9 (source : List Char) (ic : Cursor)
    (options : List (List Char)) :
    longestMatch source ic options = longestMatchP0 source ic options :=
  (longestMatchP0_eq source ic options).symm

/-- C10: `lex` is total and panic-free: the checked model, which returns
`none` exactly where the Go code would index or slice a string out of range,
agrees with the total model on every input, and the pass never exhausts its
fuel — so `lex` always returns either a token list or an error. -/
theorem claim_C10 (source : List Char) :
    lexC source = some (lex source) ∧ lex source ≠ .outOfFuel :=
  ⟨lexC_eq source, lex_no_outOfFuel source⟩

end Gosql
